import Mathlib

/-!
Shallow embedding of the Delphes `Isolation` module (src/modules/Isolation.cc),
centred on `Isolation::Process`.  Doubles are modelled as rationals; the
pairwise angular separation `TLorentzVector::DeltaR` and the constant
`TMath::Pi()` are external ROOT library code, so they enter the model as
abstract parameters (a function `Momentum → Momentum → ℚ` and a config field).
-/

namespace IsolationModel

/-- A four-momentum as `Isolation::Process` uses it: only `Pt()`, `Eta()` and
the pairwise `DeltaR` (the latter kept abstract) are ever read. -/
structure Momentum where
  pt : ℚ
  eta : ℚ
deriving DecidableEq

/-- The fields of `Candidate` (classes/DelphesClasses.h) read or written by
`Isolation::Process`: momentum, charge, the reconstructed-pile-up flag, the
`TObject` unique id, and the six output fields. -/
structure Candidate where
  momentum : Momentum
  charge : ℤ
  isRecoPU : Bool
  uniqueId : ℕ
  isolationVar : ℚ
  isolationVarRhoCorr : ℚ
  sumPtCharged : ℚ
  sumPtNeutral : ℚ
  sumPtChargedPU : ℚ
  sumPt : ℚ
deriving DecidableEq

/-- An entry of the rho input array: `Process` reads `Edges[0]`, `Edges[1]`
and `Momentum.Pt()` of each object there (the pt is the density value). -/
structure RhoObject where
  edges0 : ℚ
  edges1 : ℚ
  pt : ℚ
deriving DecidableEq

/-- The configuration read in `Isolation::Init`.  `piVal` stands for the
external constant `TMath::Pi()` used at line 269. -/
structure IsolationConfig where
  deltaRMax : ℚ
  iso_p0 : ℚ
  iso_p1 : ℚ
  iso_p0_ee : ℚ
  iso_p1_ee : ℚ
  ptRatioMax : ℚ
  ptSumMax : ℚ
  usePTSum : Bool
  useLooseID : Bool
  useRhoCorrection : Bool
  ptMin : ℚ
  piVal : ℚ
deriving DecidableEq

/-- The four running sums and the object counter of the cone loop
(lines 208-213). -/
structure Sums where
  sumNeutral : ℚ
  sumChargedNoPU : ℚ
  sumChargedPU : ℚ
  sumAllParticles : ℚ
  counter : ℕ
deriving DecidableEq

/-- `IsolationClassifier::GetCategory` (lines 71-79): category `-1` below the
pt threshold, `0` otherwise. -/
def getCategory (ptMin : ℚ) (o : Candidate) : ℤ :=
  if o.momentum.pt < ptMin then -1 else 0

/-- Modelled from the spec: `ExRootFilter::GetSubArray` is not under src/
(only its caller at lines 178-181 is).  Per spec section 4.1 the pre-filter
produces the subset with `momentum.pt() >= ptMin`, and "an empty result is
valid and causes the whole pass to emit nothing", which the caller's null
check (line 181) realises only if the filter hands back a null sub-array when
no object is of the requested category; so an empty subset is modelled as
`none`. -/
def getSubArray (ptMin : ℚ) (l : List Candidate) : Option (List Candidate) :=
  let sub := l.filter fun o => decide (getCategory ptMin o = 0)
  if sub.isEmpty then none else some sub

/-- One step of the rho scan (lines 197-203): a bin matching
`eta >= Edges[0] && eta < Edges[1]` overwrites the running value. -/
def rhoStep (eta : ℚ) (rho : ℚ) (object : RhoObject) : ℚ :=
  if eta ≥ object.edges0 ∧ eta < object.edges1 then object.pt else rho

/-- The rho lookup (lines 193-204, repeated at 243-255): `rho` starts at `0.0`
and the scan only runs when the rho input array is present. -/
def findRho (rhoArr : Option (List RhoObject)) (eta : ℚ) : ℚ :=
  match rhoArr with
  | none => 0
  | some objs => objs.foldl (rhoStep eta) 0

/-- One iteration of the cone loop (lines 216-241): an isolation object inside
the cone that is not the candidate itself feeds `sumAllParticles` and exactly
one category bucket, and bumps the counter. -/
def accumStep (dR : Momentum → Momentum → ℚ) (deltaRMax : ℚ) (candidate : Candidate)
    (s : Sums) (isolation : Candidate) : Sums :=
  if dR candidate.momentum isolation.momentum ≤ deltaRMax ∧
      candidate.uniqueId ≠ isolation.uniqueId then
    let s1 := { s with sumAllParticles := s.sumAllParticles + isolation.momentum.pt }
    let s2 :=
      if isolation.charge ≠ 0 then
        if isolation.isRecoPU then
          { s1 with sumChargedPU := s1.sumChargedPU + isolation.momentum.pt }
        else
          { s1 with sumChargedNoPU := s1.sumChargedNoPU + isolation.momentum.pt }
      else
        { s1 with sumNeutral := s1.sumNeutral + isolation.momentum.pt }
    { s2 with counter := s2.counter + 1 }
  else s

/-- The whole cone loop for one candidate: all sums start at `0.0`. -/
def accumulate (dR : Momentum → Momentum → ℚ) (deltaRMax : ℚ) (candidate : Candidate)
    (isolationArray : List Candidate) : Sums :=
  isolationArray.foldl (accumStep dR deltaRMax candidate) ⟨0, 0, 0, 0, 0⟩

/-- The eta-dependent parametrized cut (lines 257-265). -/
def isoCut (cfg : IsolationConfig) (m : Momentum) : ℚ :=
  if |m.eta| < 1.488 then cfg.iso_p0 + cfg.iso_p1 * m.pt
  else cfg.iso_p0_ee + cfg.iso_p1_ee * m.pt

/-- Delta-beta corrected sum (line 268). -/
def sumDBeta (s : Sums) : ℚ :=
  s.sumChargedNoPU + max (s.sumNeutral - 0.5 * s.sumChargedPU) 0

/-- Rho-corrected sum (line 269). -/
def sumRhoCorr (cfg : IsolationConfig) (rho : ℚ) (s : Sums) : ℚ :=
  s.sumChargedNoPU +
    max (s.sumNeutral - max rho 0 * cfg.deltaRMax * cfg.deltaRMax * cfg.piVal) 0

/-- Delta-beta ratio (line 271). -/
def ratioDBeta (s : Sums) (pt : ℚ) : ℚ := sumDBeta s / pt

/-- Rho-corrected ratio (line 272). -/
def ratioRhoCorr (cfg : IsolationConfig) (rho : ℚ) (s : Sums) (pt : ℚ) : ℚ :=
  sumRhoCorr cfg rho s / pt

/-- The selection chain (lines 288-302): `true` means the candidate is dropped
(`continue`), following the three ordered clauses of the source. -/
def rejected (cfg : IsolationConfig) (sum ratio isoCutVal : ℚ) : Bool :=
  if cfg.usePTSum ∧ ¬cfg.useLooseID ∧ sum > cfg.ptSumMax then true
  else if cfg.useLooseID ∧ ¬cfg.usePTSum ∧ sum > isoCutVal then true
  else if ¬cfg.usePTSum ∧ ratio > cfg.ptRatioMax then true
  else false

/-- The sum the selection chain tests (line 284). -/
def selSum (dR : Momentum → Momentum → ℚ) (cfg : IsolationConfig)
    (rhoArr : Option (List RhoObject)) (isolationArray : List Candidate)
    (candidate : Candidate) : ℚ :=
  if cfg.useRhoCorrection then
    sumRhoCorr cfg (findRho rhoArr |candidate.momentum.eta|)
      (accumulate dR cfg.deltaRMax candidate isolationArray)
  else
    sumDBeta (accumulate dR cfg.deltaRMax candidate isolationArray)

/-- The ratio the selection chain tests (line 286). -/
def selRatioVal (dR : Momentum → Momentum → ℚ) (cfg : IsolationConfig)
    (rhoArr : Option (List RhoObject)) (isolationArray : List Candidate)
    (candidate : Candidate) : ℚ :=
  if cfg.useRhoCorrection then
    ratioRhoCorr cfg (findRho rhoArr |candidate.momentum.eta|)
      (accumulate dR cfg.deltaRMax candidate isolationArray)
      candidate.momentum.pt
  else
    ratioDBeta (accumulate dR cfg.deltaRMax candidate isolationArray)
      candidate.momentum.pt

/-- One iteration of the candidate loop (lines 188-304): both rho scans, the
cone accumulation, the corrections, the unconditional field writes, and the
selection decision.  Returns the updated candidate (the in-place mutation of
lines 274-279) and whether it is added to the output array. -/
def processCandidate (dR : Momentum → Momentum → ℚ) (cfg : IsolationConfig)
    (rhoArr : Option (List RhoObject)) (isolationArray : List Candidate)
    (candidate : Candidate) : Candidate × Bool :=
  let eta := |candidate.momentum.eta|
  let rho := findRho rhoArr eta
  let s := accumulate dR cfg.deltaRMax candidate isolationArray
  let rho := findRho rhoArr eta
  let isoCutVal := isoCut cfg candidate.momentum
  let sumDB := sumDBeta s
  let sumRC := sumRhoCorr cfg rho s
  let ratioDB := ratioDBeta s candidate.momentum.pt
  let ratioRC := ratioRhoCorr cfg rho s candidate.momentum.pt
  let c := { candidate with
    isolationVar := ratioDB
    isolationVarRhoCorr := ratioRC
    sumPtCharged := s.sumChargedNoPU
    sumPtNeutral := s.sumNeutral
    sumPtChargedPU := s.sumChargedPU
    sumPt := s.sumAllParticles }
  let sum := if cfg.useRhoCorrection then sumRC else sumDB
  let ratio := if cfg.useRhoCorrection then ratioRC else ratioDB
  (c, !rejected cfg sum ratio isoCutVal)

/-- The candidate loop: first component is the final contents of the candidate
input array (every candidate gets its fields written in place), second is the
output array (accepted candidates only, input order preserved). -/
def processLoop (dR : Momentum → Momentum → ℚ) (cfg : IsolationConfig)
    (rhoArr : Option (List RhoObject)) (isolationArray : List Candidate) :
    List Candidate → List Candidate × List Candidate
  | [] => ([], [])
  | candidate :: rest =>
    let r := processCandidate dR cfg rhoArr isolationArray candidate
    let restRes := processLoop dR cfg rhoArr isolationArray rest
    (r.1 :: restRes.1, (if r.2 then [r.1] else []) ++ restRes.2)

/-- `Isolation::Process` from the filter result on: a null sub-array (line
181) returns at once, leaving every candidate untouched and the output array
empty. -/
def ProcessWith (dR : Momentum → Momentum → ℚ) (cfg : IsolationConfig)
    (rhoArr : Option (List RhoObject)) (filterResult : Option (List Candidate))
    (candidates : List Candidate) : List Candidate × List Candidate :=
  match filterResult with
  | none => (candidates, [])
  | some isolationArray => processLoop dR cfg rhoArr isolationArray candidates

/-- `Isolation::Process` (lines 167-306) for one pass. -/
def Process (dR : Momentum → Momentum → ℚ) (cfg : IsolationConfig)
    (rhoArr : Option (List RhoObject)) (isolationInput candidates : List Candidate) :
    List Candidate × List Candidate :=
  ProcessWith dR cfg rhoArr (getSubArray cfg.ptMin isolationInput) candidates

/-- Refinement variant of `processCandidate` that performs a single rho lookup
per candidate, omitting the redundant first scan of lines 192-204; everything
else is unchanged. -/
def processCandidateSingleRho (dR : Momentum → Momentum → ℚ) (cfg : IsolationConfig)
    (rhoArr : Option (List RhoObject)) (isolationArray : List Candidate)
    (candidate : Candidate) : Candidate × Bool :=
  let eta := |candidate.momentum.eta|
  let s := accumulate dR cfg.deltaRMax candidate isolationArray
  let rho := findRho rhoArr eta
  let isoCutVal := isoCut cfg candidate.momentum
  let sumDB := sumDBeta s
  let sumRC := sumRhoCorr cfg rho s
  let ratioDB := ratioDBeta s candidate.momentum.pt
  let ratioRC := ratioRhoCorr cfg rho s candidate.momentum.pt
  let c := { candidate with
    isolationVar := ratioDB
    isolationVarRhoCorr := ratioRC
    sumPtCharged := s.sumChargedNoPU
    sumPtNeutral := s.sumNeutral
    sumPtChargedPU := s.sumChargedPU
    sumPt := s.sumAllParticles }
  let sum := if cfg.useRhoCorrection then sumRC else sumDB
  let ratio := if cfg.useRhoCorrection then ratioRC else ratioDB
  (c, !rejected cfg sum ratio isoCutVal)

/-- The candidate loop built on `processCandidateSingleRho`. -/
def processLoopSingleRho (dR : Momentum → Momentum → ℚ) (cfg : IsolationConfig)
    (rhoArr : Option (List RhoObject)) (isolationArray : List Candidate) :
    List Candidate → List Candidate × List Candidate
  | [] => ([], [])
  | candidate :: rest =>
    let r := processCandidateSingleRho dR cfg rhoArr isolationArray candidate
    let restRes := processLoopSingleRho dR cfg rhoArr isolationArray rest
    (r.1 :: restRes.1, (if r.2 then [r.1] else []) ++ restRes.2)

/-- `Process` with the single-lookup candidate loop. -/
def ProcessSingleRho (dR : Momentum → Momentum → ℚ) (cfg : IsolationConfig)
    (rhoArr : Option (List RhoObject)) (isolationInput candidates : List Candidate) :
    List Candidate × List Candidate :=
  match getSubArray cfg.ptMin isolationInput with
  | none => (candidates, [])
  | some isolationArray => processLoopSingleRho dR cfg rhoArr isolationArray candidates

/-- IEEE-754 double values as `Process` can produce them at a zero-pt
candidate: a finite value (modelled exactly as a rational, ℚ having no signed
zero), the two infinities, or NaN. -/
inductive FP where
  | finite (q : ℚ)
  | posInf
  | negInf
  | nan
deriving DecidableEq

/-- IEEE-754 division on `FP`: finite/0 gives a signed infinity, 0/0 gives
NaN, NaN propagates, and a finite numerator over an infinity gives zero.
This is the semantics of the unguarded divisions at lines 271-272. -/
def FP.div : FP → FP → FP
  | .nan, _ => .nan
  | _, .nan => .nan
  | .finite a, .finite b =>
      if b = 0 then (if a = 0 then .nan else if 0 < a then .posInf else .negInf)
      else .finite (a / b)
  | .posInf, .finite b => if 0 ≤ b then .posInf else .negInf
  | .negInf, .finite b => if 0 ≤ b then .negInf else .posInf
  | .finite _, .posInf => .finite 0
  | .finite _, .negInf => .finite 0
  | .posInf, .posInf => .nan
  | .posInf, .negInf => .nan
  | .negInf, .posInf => .nan
  | .negInf, .negInf => .nan

/-- IEEE-754 `>` on `FP`: any comparison involving NaN is false. -/
def FP.gt : FP → FP → Bool
  | .nan, _ => false
  | _, .nan => false
  | .finite a, .finite b => decide (b < a)
  | .posInf, .posInf => false
  | .posInf, .finite _ => true
  | .posInf, .negInf => true
  | .finite _, .posInf => false
  | .finite _, .negInf => true
  | .negInf, _ => false

/-- The selection chain of lines 288-302 with its comparisons read at IEEE
double semantics, for the zero-pt boundary analysis. -/
def rejectedFP (cfg : IsolationConfig) (sum ratio isoCutVal : FP) : Bool :=
  if cfg.usePTSum ∧ ¬cfg.useLooseID ∧ FP.gt sum (.finite cfg.ptSumMax) then true
  else if cfg.useLooseID ∧ ¬cfg.usePTSum ∧ FP.gt sum isoCutVal then true
  else if ¬cfg.usePTSum ∧ FP.gt ratio (.finite cfg.ptRatioMax) then true
  else false

/-- The selection chain rejects exactly when one of the three guards holds;
the else-if structure collapses to a plain disjunction. -/
theorem rejected_eq_true_iff (cfg : IsolationConfig) (sum ratio isoCutVal : ℚ) :
    rejected cfg sum ratio isoCutVal = true ↔
      (cfg.usePTSum = true ∧ cfg.useLooseID = false ∧ sum > cfg.ptSumMax) ∨
      (cfg.useLooseID = true ∧ cfg.usePTSum = false ∧ sum > isoCutVal) ∨
      (cfg.usePTSum = false ∧ ratio > cfg.ptRatioMax) := by
  unfold rejected
  split_ifs with h1 h2 h3 <;> simp_all

/-- Unfolding `processCandidate` into the named pipeline pieces. -/
theorem processCandidate_eq (dR : Momentum → Momentum → ℚ) (cfg : IsolationConfig)
    (rhoArr : Option (List RhoObject)) (isolationArray : List Candidate)
    (candidate : Candidate) :
    processCandidate dR cfg rhoArr isolationArray candidate =
      ({ candidate with
          isolationVar :=
            ratioDBeta (accumulate dR cfg.deltaRMax candidate isolationArray)
              candidate.momentum.pt
          isolationVarRhoCorr :=
            ratioRhoCorr cfg (findRho rhoArr |candidate.momentum.eta|)
              (accumulate dR cfg.deltaRMax candidate isolationArray)
              candidate.momentum.pt
          sumPtCharged := (accumulate dR cfg.deltaRMax candidate isolationArray).sumChargedNoPU
          sumPtNeutral := (accumulate dR cfg.deltaRMax candidate isolationArray).sumNeutral
          sumPtChargedPU := (accumulate dR cfg.deltaRMax candidate isolationArray).sumChargedPU
          sumPt := (accumulate dR cfg.deltaRMax candidate isolationArray).sumAllParticles },
       !rejected cfg (selSum dR cfg rhoArr isolationArray candidate)
          (selRatioVal dR cfg rhoArr isolationArray candidate)
          (isoCut cfg candidate.momentum)) := rfl

/-- The rho scan with arbitrary starting value computes the last matching
bin's density, or keeps the starting value when no bin matches. -/
theorem foldl_rhoStep_getLast (eta : ℚ) (objs : List RhoObject) (init : ℚ) :
    objs.foldl (rhoStep eta) init =
      ((((objs.filter fun o => decide (eta ≥ o.edges0 ∧ eta < o.edges1)).getLast?).map
        fun o => o.pt).getD init) := by
  induction objs generalizing init with
  | nil => rfl
  | cons o t ih =>
    simp only [List.foldl_cons, List.filter_cons]
    rw [ih]
    cases hf : t.filter fun o => decide (eta ≥ o.edges0 ∧ eta < o.edges1) with
    | nil => by_cases h : eta ≥ o.edges0 ∧ eta < o.edges1 <;> simp [rhoStep, h]
    | cons a l =>
      have hx : ∃ x, (a :: l).getLast? = some x := by
        cases hgl : (a :: l).getLast? with
        | none => simp at hgl
        | some x => exact ⟨x, rfl⟩
      obtain ⟨x, hx⟩ := hx
      by_cases h : eta ≥ o.edges0 ∧ eta < o.edges1 <;> simp [rhoStep, h, hx]

/-- `sumAllParticles` accumulates the pt of every in-cone, non-self object. -/
theorem foldl_accumStep_sumAll (dR : Momentum → Momentum → ℚ) (dmax : ℚ)
    (c : Candidate) (l : List Candidate) (s : Sums) :
    (l.foldl (accumStep dR dmax c) s).sumAllParticles =
      s.sumAllParticles +
        (((l.filter fun o =>
            decide (dR c.momentum o.momentum ≤ dmax ∧ c.uniqueId ≠ o.uniqueId)).map
          fun o => o.momentum.pt).sum) := by
  induction l generalizing s with
  | nil => simp
  | cons o t ih =>
    simp only [List.foldl_cons, List.filter_cons]
    rw [ih]
    by_cases h : dR c.momentum o.momentum ≤ dmax ∧ c.uniqueId ≠ o.uniqueId <;>
      by_cases hc : o.charge = 0 <;>
      by_cases hp : o.isRecoPU = true <;>
      simp [accumStep, h, hc, hp] <;>
      ring

/-- `sumNeutral` accumulates the pt of included neutral objects. -/
theorem foldl_accumStep_sumNeutral (dR : Momentum → Momentum → ℚ) (dmax : ℚ)
    (c : Candidate) (l : List Candidate) (s : Sums) :
    (l.foldl (accumStep dR dmax c) s).sumNeutral =
      s.sumNeutral +
        (((l.filter fun o =>
            decide ((dR c.momentum o.momentum ≤ dmax ∧ c.uniqueId ≠ o.uniqueId) ∧
              o.charge = 0)).map
          fun o => o.momentum.pt).sum) := by
  induction l generalizing s with
  | nil => simp
  | cons o t ih =>
    simp only [List.foldl_cons, List.filter_cons]
    rw [ih]
    by_cases h : dR c.momentum o.momentum ≤ dmax ∧ c.uniqueId ≠ o.uniqueId <;>
      by_cases hc : o.charge = 0 <;>
      by_cases hp : o.isRecoPU = true <;>
      simp [accumStep, h, hc, hp] <;>
      ring

/-- `sumChargedPU` accumulates the pt of included charged pile-up objects. -/
theorem foldl_accumStep_sumChargedPU (dR : Momentum → Momentum → ℚ) (dmax : ℚ)
    (c : Candidate) (l : List Candidate) (s : Sums) :
    (l.foldl (accumStep dR dmax c) s).sumChargedPU =
      s.sumChargedPU +
        (((l.filter fun o =>
            decide ((dR c.momentum o.momentum ≤ dmax ∧ c.uniqueId ≠ o.uniqueId) ∧
              o.charge ≠ 0 ∧ o.isRecoPU = true)).map
          fun o => o.momentum.pt).sum) := by
  induction l generalizing s with
  | nil => simp
  | cons o t ih =>
    simp only [List.foldl_cons, List.filter_cons]
    rw [ih]
    by_cases h : dR c.momentum o.momentum ≤ dmax ∧ c.uniqueId ≠ o.uniqueId <;>
      by_cases hc : o.charge = 0 <;>
      by_cases hp : o.isRecoPU = true <;>
      simp [accumStep, h, hc, hp] <;>
      ring

/-- `sumChargedNoPU` accumulates the pt of included charged non-pile-up
objects. -/
theorem foldl_accumStep_sumChargedNoPU (dR : Momentum → Momentum → ℚ) (dmax : ℚ)
    (c : Candidate) (l : List Candidate) (s : Sums) :
    (l.foldl (accumStep dR dmax c) s).sumChargedNoPU =
      s.sumChargedNoPU +
        (((l.filter fun o =>
            decide ((dR c.momentum o.momentum ≤ dmax ∧ c.uniqueId ≠ o.uniqueId) ∧
              o.charge ≠ 0 ∧ o.isRecoPU = false)).map
          fun o => o.momentum.pt).sum) := by
  induction l generalizing s with
  | nil => simp
  | cons o t ih =>
    simp only [List.foldl_cons, List.filter_cons]
    rw [ih]
    by_cases h : dR c.momentum o.momentum ≤ dmax ∧ c.uniqueId ≠ o.uniqueId <;>
      by_cases hc : o.charge = 0 <;>
      by_cases hp : o.isRecoPU = true <;>
      simp [accumStep, h, hc, hp] <;>
      ring

/-- Each cone-loop step adds an included object's pt to `sumAllParticles` and
to exactly one bucket, so the bucket total tracks the all-particle total. -/
theorem foldl_accumStep_partition (dR : Momentum → Momentum → ℚ) (dmax : ℚ)
    (c : Candidate) (l : List Candidate) (s : Sums) :
    (l.foldl (accumStep dR dmax c) s).sumChargedNoPU +
        (l.foldl (accumStep dR dmax c) s).sumChargedPU +
        (l.foldl (accumStep dR dmax c) s).sumNeutral -
        (l.foldl (accumStep dR dmax c) s).sumAllParticles =
      s.sumChargedNoPU + s.sumChargedPU + s.sumNeutral - s.sumAllParticles := by
  induction l generalizing s with
  | nil => rfl
  | cons o t ih =>
    rw [List.foldl_cons, ih]
    by_cases h : dR c.momentum o.momentum ≤ dmax ∧ c.uniqueId ≠ o.uniqueId <;>
      by_cases hc : o.charge = 0 <;>
      by_cases hp : o.isRecoPU = true <;>
      simp [accumStep, h, hc, hp] <;>
      ring

/-- Every candidate appears, updated, in the final candidate array, whether
accepted or not. -/
theorem processLoop_fst (dR : Momentum → Momentum → ℚ) (cfg : IsolationConfig)
    (rhoArr : Option (List RhoObject)) (isolationArray : List Candidate)
    (candidates : List Candidate) :
    (processLoop dR cfg rhoArr isolationArray candidates).1 =
      candidates.map fun c => (processCandidate dR cfg rhoArr isolationArray c).1 := by
  induction candidates with
  | nil => rfl
  | cons c t ih => simp [processLoop, ih]

/-- The candidate loop is unchanged by dropping the dead first rho scan. -/
theorem processLoop_eq_singleRho (dR : Momentum → Momentum → ℚ) (cfg : IsolationConfig)
    (rhoArr : Option (List RhoObject)) (isolationArray : List Candidate)
    (candidates : List Candidate) :
    processLoop dR cfg rhoArr isolationArray candidates =
      processLoopSingleRho dR cfg rhoArr isolationArray candidates := by
  have hpc : ∀ c : Candidate, processCandidate dR cfg rhoArr isolationArray c =
      processCandidateSingleRho dR cfg rhoArr isolationArray c := fun c => rfl
  induction candidates with
  | nil => rfl
  | cons c t ih => simp [processLoop, processLoopSingleRho, ih, hpc]

/-- Claim C1: for every candidate, with `sum` and `ratio` picked by
`useRhoCorrection` and the eta-dependent `isoCut`, the candidate is rejected
by the selection policy iff (usePtSum and not useLooseId and sum > ptSumMax)
or (useLooseId and not usePtSum and sum > isoCut) or (not usePtSum and
ratio > ptRatioMax); when both flags are set no clause fires and the
candidate is always accepted; and with useLooseId set and usePtSum clear both
the sum > isoCut test and the ratio > ptRatioMax test can reject. -/
theorem selection_policy_decision (dR : Momentum → Momentum → ℚ)
    (cfg : IsolationConfig) (rhoArr : Option (List RhoObject))
    (isolationArray : List Candidate) (candidate : Candidate) :
    ((processCandidate dR cfg rhoArr isolationArray candidate).2 = false ↔
      (cfg.usePTSum = true ∧ cfg.useLooseID = false ∧
        selSum dR cfg rhoArr isolationArray candidate > cfg.ptSumMax) ∨
      (cfg.useLooseID = true ∧ cfg.usePTSum = false ∧
        selSum dR cfg rhoArr isolationArray candidate > isoCut cfg candidate.momentum) ∨
      (cfg.usePTSum = false ∧
        selRatioVal dR cfg rhoArr isolationArray candidate > cfg.ptRatioMax)) ∧
    (cfg.usePTSum = true → cfg.useLooseID = true →
      (processCandidate dR cfg rhoArr isolationArray candidate).2 = true) ∧
    (∃ (cfg1 : IsolationConfig) (sm rt ic : ℚ), cfg1.useLooseID = true ∧
      cfg1.usePTSum = false ∧ sm > ic ∧ ¬rt > cfg1.ptRatioMax ∧
      rejected cfg1 sm rt ic = true) ∧
    (∃ (cfg2 : IsolationConfig) (sm rt ic : ℚ), cfg2.useLooseID = true ∧
      cfg2.usePTSum = false ∧ ¬sm > ic ∧ rt > cfg2.ptRatioMax ∧
      rejected cfg2 sm rt ic = true) := by
  refine ⟨?_, ?_, ?_, ?_⟩
  · rw [processCandidate_eq]
    simpa using rejected_eq_true_iff cfg (selSum dR cfg rhoArr isolationArray candidate)
      (selRatioVal dR cfg rhoArr isolationArray candidate) (isoCut cfg candidate.momentum)
  · intro h1 h2
    rw [processCandidate_eq]
    simp [rejected, h1, h2]
  · exact ⟨⟨0, 0, 0, 0, 0, 1, 0, false, true, false, 0, 0⟩, 5, 0, 1,
      rfl, rfl, by norm_num, by norm_num, by decide⟩
  · exact ⟨⟨0, 0, 0, 0, 0, 1, 0, false, true, false, 0, 0⟩, 0, 5, 1,
      rfl, rfl, by norm_num, by norm_num, by decide⟩

/-- Witness for C1 at a concrete input: with both `usePTSum` and `useLooseID`
set the candidate is accepted. -/
theorem selection_policy_decision_witness :
    (processCandidate (fun _ _ => 0) ⟨0, 0, 0, 0, 0, 0, 0, true, true, true, 0, 0⟩
      none [] ⟨⟨1, 0⟩, 0, false, 0, 0, 0, 0, 0, 0, 0⟩).2 = true :=
  (selection_policy_decision (fun _ _ => 0) ⟨0, 0, 0, 0, 0, 0, 0, true, true, true, 0, 0⟩
    none [] ⟨⟨1, 0⟩, 0, false, 0, 0, 0, 0, 0, 0, 0⟩).2.1 rfl rfl

/-- Claim C2: the correction engine computes
sumDeltaBeta = sumChargedNoPU + max(sumNeutral - 0.5*sumChargedPU, 0) and
sumRhoCorr = sumChargedNoPU + max(sumNeutral - max(rho,0)*deltaRMax^2*pi, 0),
and the ratios written by the pipeline are these sums divided by the
candidate's pt. -/
theorem correction_engine_formulas (dR : Momentum → Momentum → ℚ)
    (cfg : IsolationConfig) (rhoArr : Option (List RhoObject))
    (isolationArray : List Candidate) (candidate : Candidate) :
    sumDBeta (accumulate dR cfg.deltaRMax candidate isolationArray) =
        (accumulate dR cfg.deltaRMax candidate isolationArray).sumChargedNoPU +
          max ((accumulate dR cfg.deltaRMax candidate isolationArray).sumNeutral -
            0.5 * (accumulate dR cfg.deltaRMax candidate isolationArray).sumChargedPU) 0 ∧
    sumRhoCorr cfg (findRho rhoArr |candidate.momentum.eta|)
        (accumulate dR cfg.deltaRMax candidate isolationArray) =
      (accumulate dR cfg.deltaRMax candidate isolationArray).sumChargedNoPU +
        max ((accumulate dR cfg.deltaRMax candidate isolationArray).sumNeutral -
          max (findRho rhoArr |candidate.momentum.eta|) 0 * cfg.deltaRMax ^ 2 * cfg.piVal) 0 ∧
    (processCandidate dR cfg rhoArr isolationArray candidate).1.isolationVar =
      sumDBeta (accumulate dR cfg.deltaRMax candidate isolationArray) /
        candidate.momentum.pt ∧
    (processCandidate dR cfg rhoArr isolationArray candidate).1.isolationVarRhoCorr =
      sumRhoCorr cfg (findRho rhoArr |candidate.momentum.eta|)
        (accumulate dR cfg.deltaRMax candidate isolationArray) /
        candidate.momentum.pt := by
  refine ⟨rfl, by simp [sumRhoCorr, pow_two, mul_assoc], rfl, rfl⟩

/-- Claim C3: an isolation object contributes to the cone sums iff it is
within `deltaRMax` (boundary inclusive) and is not the candidate itself, and
each included object's pt goes to `sumAllParticles` and to exactly one of the
three category buckets. -/
theorem cone_accumulation_characterisation (dR : Momentum → Momentum → ℚ)
    (deltaRMax : ℚ) (candidate : Candidate) (l : List Candidate) :
    (accumulate dR deltaRMax candidate l).sumAllParticles =
        (((l.filter fun o => decide (dR candidate.momentum o.momentum ≤ deltaRMax ∧
          o.uniqueId ≠ candidate.uniqueId)).map fun o => o.momentum.pt).sum) ∧
    (accumulate dR deltaRMax candidate l).sumNeutral =
        (((l.filter fun o => decide ((dR candidate.momentum o.momentum ≤ deltaRMax ∧
          o.uniqueId ≠ candidate.uniqueId) ∧ o.charge = 0)).map
            fun o => o.momentum.pt).sum) ∧
    (accumulate dR deltaRMax candidate l).sumChargedPU =
        (((l.filter fun o => decide ((dR candidate.momentum o.momentum ≤ deltaRMax ∧
          o.uniqueId ≠ candidate.uniqueId) ∧ o.charge ≠ 0 ∧ o.isRecoPU = true)).map
            fun o => o.momentum.pt).sum) ∧
    (accumulate dR deltaRMax candidate l).sumChargedNoPU =
        (((l.filter fun o => decide ((dR candidate.momentum o.momentum ≤ deltaRMax ∧
          o.uniqueId ≠ candidate.uniqueId) ∧ o.charge ≠ 0 ∧ o.isRecoPU = false)).map
            fun o => o.momentum.pt).sum) := by
  refine ⟨?_, ?_, ?_, ?_⟩
  · have h1 : (l.filter fun o => decide (dR candidate.momentum o.momentum ≤ deltaRMax ∧
        o.uniqueId ≠ candidate.uniqueId)) =
        l.filter fun o => decide (dR candidate.momentum o.momentum ≤ deltaRMax ∧
          candidate.uniqueId ≠ o.uniqueId) :=
      List.filter_congr fun a _ =>
        decide_eq_decide.mpr (and_congr_right fun _ => ne_comm)
    rw [h1, accumulate, foldl_accumStep_sumAll]
    simp
  · have h1 : (l.filter fun o => decide ((dR candidate.momentum o.momentum ≤ deltaRMax ∧
        o.uniqueId ≠ candidate.uniqueId) ∧ o.charge = 0)) =
        l.filter fun o => decide ((dR candidate.momentum o.momentum ≤ deltaRMax ∧
          candidate.uniqueId ≠ o.uniqueId) ∧ o.charge = 0) :=
      List.filter_congr fun a _ =>
        decide_eq_decide.mpr
          (and_congr_left fun _ => and_congr_right fun _ => ne_comm)
    rw [h1, accumulate, foldl_accumStep_sumNeutral]
    simp
  · have h1 : (l.filter fun o => decide ((dR candidate.momentum o.momentum ≤ deltaRMax ∧
        o.uniqueId ≠ candidate.uniqueId) ∧ o.charge ≠ 0 ∧ o.isRecoPU = true)) =
        l.filter fun o => decide ((dR candidate.momentum o.momentum ≤ deltaRMax ∧
          candidate.uniqueId ≠ o.uniqueId) ∧ o.charge ≠ 0 ∧ o.isRecoPU = true) :=
      List.filter_congr fun a _ =>
        decide_eq_decide.mpr
          (and_congr_left fun _ => and_congr_right fun _ => ne_comm)
    rw [h1, accumulate, foldl_accumStep_sumChargedPU]
    simp
  · have h1 : (l.filter fun o => decide ((dR candidate.momentum o.momentum ≤ deltaRMax ∧
        o.uniqueId ≠ candidate.uniqueId) ∧ o.charge ≠ 0 ∧ o.isRecoPU = false)) =
        l.filter fun o => decide ((dR candidate.momentum o.momentum ≤ deltaRMax ∧
          candidate.uniqueId ≠ o.uniqueId) ∧ o.charge ≠ 0 ∧ o.isRecoPU = false) :=
      List.filter_congr fun a _ =>
        decide_eq_decide.mpr
          (and_congr_left fun _ => and_congr_right fun _ => ne_comm)
    rw [h1, accumulate, foldl_accumStep_sumChargedNoPU]
    simp

/-- Claim C4: the six output fields are written before and regardless of the
selection decision, no other candidate field is modified, and every candidate
of the loop (accepted or rejected) carries the written fields. -/
theorem output_fields_always_written (dR : Momentum → Momentum → ℚ)
    (cfg : IsolationConfig) (rhoArr : Option (List RhoObject))
    (isolationArray : List Candidate) (candidate : Candidate)
    (candidates : List Candidate) :
    (processCandidate dR cfg rhoArr isolationArray candidate).1.isolationVar =
        ratioDBeta (accumulate dR cfg.deltaRMax candidate isolationArray)
          candidate.momentum.pt ∧
    (processCandidate dR cfg rhoArr isolationArray candidate).1.isolationVarRhoCorr =
        ratioRhoCorr cfg (findRho rhoArr |candidate.momentum.eta|)
          (accumulate dR cfg.deltaRMax candidate isolationArray)
          candidate.momentum.pt ∧
    (processCandidate dR cfg rhoArr isolationArray candidate).1.sumPtCharged =
        (accumulate dR cfg.deltaRMax candidate isolationArray).sumChargedNoPU ∧
    (processCandidate dR cfg rhoArr isolationArray candidate).1.sumPtNeutral =
        (accumulate dR cfg.deltaRMax candidate isolationArray).sumNeutral ∧
    (processCandidate dR cfg rhoArr isolationArray candidate).1.sumPtChargedPU =
        (accumulate dR cfg.deltaRMax candidate isolationArray).sumChargedPU ∧
    (processCandidate dR cfg rhoArr isolationArray candidate).1.sumPt =
        (accumulate dR cfg.deltaRMax candidate isolationArray).sumAllParticles ∧
    (processCandidate dR cfg rhoArr isolationArray candidate).1.momentum =
        candidate.momentum ∧
    (processCandidate dR cfg rhoArr isolationArray candidate).1.charge =
        candidate.charge ∧
    (processCandidate dR cfg rhoArr isolationArray candidate).1.isRecoPU =
        candidate.isRecoPU ∧
    (processCandidate dR cfg rhoArr isolationArray candidate).1.uniqueId =
        candidate.uniqueId ∧
    (processLoop dR cfg rhoArr isolationArray candidates).1 =
        candidates.map fun c => (processCandidate dR cfg rhoArr isolationArray c).1 :=
  ⟨rfl, rfl, rfl, rfl, rfl, rfl, rfl, rfl, rfl, rfl,
    processLoop_fst dR cfg rhoArr isolationArray candidates⟩

/-- Claim C5: the rho lookup scans the bins linearly; a bin matches when
eta >= binLow and eta < binHigh; the last matching bin wins; and rho is 0
when the table is absent, empty, or no bin matches. -/
theorem rho_lookup_last_match_wins (eta : ℚ) (objs : List RhoObject) :
    findRho none eta = 0 ∧
    findRho (some []) eta = 0 ∧
    findRho (some objs) eta =
      ((((objs.filter fun o => decide (eta ≥ o.edges0 ∧ eta < o.edges1)).getLast?).map
        fun o => o.pt).getD 0) :=
  ⟨rfl, rfl, foldl_rhoStep_getLast eta objs 0⟩

/-- Claim C6 (spec-modelled pre-filter): if every isolation input object falls
below the pt threshold, the pre-filtered subset is empty and the pass emits
nothing. -/
theorem empty_prefilter_emits_nothing (dR : Momentum → Momentum → ℚ)
    (cfg : IsolationConfig) (rhoArr : Option (List RhoObject))
    (isolationInput candidates : List Candidate)
    (h : ∀ o ∈ isolationInput, o.momentum.pt < cfg.ptMin) :
    (Process dR cfg rhoArr isolationInput candidates).2 = [] := by
  have hf : (isolationInput.filter fun o => decide (getCategory cfg.ptMin o = 0)) = [] := by
    rw [List.filter_eq_nil_iff]
    intro a ha
    simp [getCategory, h a ha]
  simp [Process, ProcessWith, getSubArray, hf]

/-- Witness for C6: a single below-threshold isolation object, one candidate,
empty output. -/
theorem empty_prefilter_emits_nothing_witness :
    (Process (fun _ _ => 0) ⟨0, 0, 0, 0, 0, 0, 0, false, false, false, 1, 0⟩ none
      [⟨⟨0, 0⟩, 0, false, 0, 0, 0, 0, 0, 0, 0⟩]
      [⟨⟨1, 0⟩, 0, false, 1, 0, 0, 0, 0, 0, 0⟩]).2 = [] :=
  empty_prefilter_emits_nothing (fun _ _ => 0)
    ⟨0, 0, 0, 0, 0, 0, 0, false, false, false, 1, 0⟩ none
    [⟨⟨0, 0⟩, 0, false, 0, 0, 0, 0, 0, 0, 0⟩]
    [⟨⟨1, 0⟩, 0, false, 1, 0, 0, 0, 0, 0, 0⟩] (by decide)

/-- Claim C7: at a zero-pt candidate the unguarded division of a nonnegative
corrected sum by pt yields infinity or NaN under IEEE double semantics; NaN
comparisons are false, so clause 3 cannot fire on a NaN ratio and such a
candidate is rejected only if clause 1 or clause 2 fires. -/
theorem zero_pt_division_ieee (cfg : IsolationConfig) (s : ℚ) (hs : 0 ≤ s) :
    (FP.div (.finite s) (.finite 0) = .posInf ∨
      FP.div (.finite s) (.finite 0) = .nan) ∧
    (s = 0 → FP.div (.finite s) (.finite 0) = .nan) ∧
    FP.gt .nan (.finite cfg.ptRatioMax) = false ∧
    (∀ sumv icv : FP,
      rejectedFP cfg sumv .nan icv = true ↔
        (cfg.usePTSum = true ∧ cfg.useLooseID = false ∧
          FP.gt sumv (.finite cfg.ptSumMax) = true) ∨
        (cfg.useLooseID = true ∧ cfg.usePTSum = false ∧
          FP.gt sumv icv = true)) := by
  refine ⟨?_, ?_, rfl, ?_⟩
  · rcases lt_or_eq_of_le hs with hlt | heq
    · left
      simp [FP.div, (ne_of_gt hlt), hlt]
    · right
      simp [FP.div, ← heq]
  · intro h0
    simp [FP.div, h0]
  · intro sumv icv
    unfold rejectedFP
    split_ifs with h1 h2 h3 <;> simp_all [FP.gt]

/-- Witness for C7 at sum 0: the ratio is NaN. -/
theorem zero_pt_division_ieee_witness :
    FP.div (.finite 0) (.finite 0) = .nan :=
  (zero_pt_division_ieee ⟨0, 0, 0, 0, 0, 0, 0, false, false, false, 0, 0⟩ 0
    (by decide)).2.1 rfl

/-- Claim C8: the three category buckets partition the included objects, so
their sums add up exactly to `sumAllParticles`. -/
theorem category_sums_partition (dR : Momentum → Momentum → ℚ) (deltaRMax : ℚ)
    (candidate : Candidate) (l : List Candidate) :
    (accumulate dR deltaRMax candidate l).sumChargedNoPU +
        (accumulate dR deltaRMax candidate l).sumChargedPU +
        (accumulate dR deltaRMax candidate l).sumNeutral =
      (accumulate dR deltaRMax candidate l).sumAllParticles := by
  have h := foldl_accumStep_partition dR deltaRMax candidate l ⟨0, 0, 0, 0, 0⟩
  simp only [sub_zero, add_zero, zero_add] at h
  rw [accumulate]
  linarith [h]

/-- Claim C9: a null filter result makes `Process` return immediately: no
candidate is touched and nothing is emitted. -/
theorem null_filter_early_return (dR : Momentum → Momentum → ℚ)
    (cfg : IsolationConfig) (rhoArr : Option (List RhoObject))
    (candidates : List Candidate) :
    ProcessWith dR cfg rhoArr none candidates = (candidates, []) := rfl

/-- Claim C10: the second rho scan recomputes the same value as the first, so
`Process` is observationally equivalent to the single-lookup variant. -/
theorem single_rho_lookup_equivalence (dR : Momentum → Momentum → ℚ)
    (cfg : IsolationConfig) (rhoArr : Option (List RhoObject))
    (isolationArray isolationInput candidates : List Candidate)
    (candidate : Candidate) :
    processCandidate dR cfg rhoArr isolationArray candidate =
        processCandidateSingleRho dR cfg rhoArr isolationArray candidate ∧
    Process dR cfg rhoArr isolationInput candidates =
        ProcessSingleRho dR cfg rhoArr isolationInput candidates := by
  refine ⟨rfl, ?_⟩
  unfold Process ProcessWith ProcessSingleRho
  cases getSubArray cfg.ptMin isolationInput with
  | none => rfl
  | some arr => exact processLoop_eq_singleRho dR cfg rhoArr arr candidates

end IsolationModel
